import Mathlib

/-!
Shallow embedding of the two-tier caching layer (`src/data/cache.py` and
`src/tools/cache_decorators.py`): the in-memory `Cache` with its
merge-by-key-field logic, the timestamped disk cache (`save_to_cache` /
`load_from_cache`), the cache-key builder (`get_cache_key`) and the memoizing
wrapper (`cache_api_call`).  Wall-clock time is passed explicitly as an
integer timestamp; the pickle serialization layer is modelled by an inductive
describing what deserializing a given file yields.
-/

namespace AIHedgeFund

/-- A record is a Python dict from field names to values, modelled as an
association list over an arbitrary value type `V` (the cache only ever
compares key-field values for equality). -/
def Record (V : Type) : Type := List (String × V)

instance (V : Type) [DecidableEq V] : DecidableEq (Record V) :=
  inferInstanceAs (DecidableEq (List (String × V)))

/-- Python `item[field]` on a dict: the value stored under `field`, or `none`
when the field is absent (in Python this raises `KeyError`). -/
def getItem {V : Type} (item : Record V) (field : String) : Option V :=
  match item with
  | [] => none
  | (k, v) :: rest => if k = field then some v else getItem rest field

/-- The error raised by the merge: Python `KeyError` (a `LookupError`
subclass) from `item[key_field]` on a record lacking the key field. -/
inductive MergeError : Type where
  | keyError
  deriving DecidableEq

/-- The set comprehension `{item[key_field] for item in existing}` in
`Cache._merge_data`: extracts each record's key-field value in order,
raising `KeyError` at the first record lacking the field. -/
def extractKeys {V : Type} (items : List (Record V)) (keyField : String) :
    Except MergeError (List V) :=
  match items with
  | [] => .ok []
  | item :: rest =>
    match getItem item keyField with
    | none => .error .keyError
    | some v =>
      match extractKeys rest keyField with
      | .error e => .error e
      | .ok vs => .ok (v :: vs)

/-- The list comprehension
`[item for item in new_data if item[key_field] not in existing_keys]` in
`Cache._merge_data`: keeps each new record whose key-field value is not among
`existingKeys`, raising `KeyError` at the first record lacking the field.
The membership test is against the keys of the previously stored batch only;
it is not extended as records are accepted. -/
def filterNew {V : Type} [DecidableEq V] (newData : List (Record V))
    (keyField : String) (existingKeys : List V) :
    Except MergeError (List (Record V)) :=
  match newData with
  | [] => .ok []
  | item :: rest =>
    match getItem item keyField with
    | none => .error .keyError
    | some v =>
      match filterNew rest keyField existingKeys with
      | .error e => .error e
      | .ok keep => .ok (if v ∈ existingKeys then keep else item :: keep)

/-- `Cache._merge_data(existing, new_data, key_field)`: when `existing` is
`None` or the empty list (Python truthiness `if not existing`), returns
`new_data` unchanged; otherwise builds the set of existing key-field values
and appends to `existing` those new records whose key-field value is not
already present. -/
def merge_data {V : Type} [DecidableEq V] (existing : Option (List (Record V)))
    (newData : List (Record V)) (keyField : String) :
    Except MergeError (List (Record V)) :=
  match existing with
  | none => .ok newData
  | some ex =>
    if ex = [] then .ok newData
    else
      match extractKeys ex keyField with
      | .error e => .error e
      | .ok existingKeys =>
        match filterNew newData keyField existingKeys with
        | .error e => .error e
        | .ok keep => .ok (ex ++ keep)

/-- The five record categories held by `Cache`, one per `_*_cache` dict. -/
inductive Category : Type where
  | prices
  | financialMetrics
  | lineItems
  | insiderTrades
  | companyNews
  deriving DecidableEq

/-- The key field each category's setter hard-codes when calling
`_merge_data` (`set_prices` uses `"time"`, `set_financial_metrics` and
`set_line_items` use `"report_period"`, `set_insider_trades` uses
`"filing_date"`, `set_company_news` uses `"date"`). -/
def Category.keyField : Category → String
  | .prices => "time"
  | .financialMetrics => "report_period"
  | .lineItems => "report_period"
  | .insiderTrades => "filing_date"
  | .companyNews => "date"

/-- Python `dict.get(k)`: first (unique) binding of `k`, else `none`. -/
def alookup {β : Type} (m : List (String × β)) (k : String) : Option β :=
  match m with
  | [] => none
  | (k2, v) :: rest => if k2 = k then some v else alookup rest k

/-- Python `d[k] = v` on a dict: replaces the binding in place when `k` is
present, otherwise appends it. -/
def aupdate {β : Type} (m : List (String × β)) (k : String) (v : β) :
    List (String × β) :=
  match m with
  | [] => [(k, v)]
  | (k2, v2) :: rest =>
    if k2 = k then (k2, v) :: rest else (k2, v2) :: aupdate rest k v

/-- The in-memory `Cache`: five dicts from ticker to record list, mirroring
`_prices_cache`, `_financial_metrics_cache`, `_line_items_cache`,
`_insider_trades_cache` and `_company_news_cache`. -/
structure Cache (V : Type) : Type where
  pricesCache : List (String × List (Record V))
  financialMetricsCache : List (String × List (Record V))
  lineItemsCache : List (String × List (Record V))
  insiderTradesCache : List (String × List (Record V))
  companyNewsCache : List (String × List (Record V))
  deriving DecidableEq

/-- `Cache.__init__`: all five dicts empty. -/
def Cache.empty (V : Type) : Cache V := ⟨[], [], [], [], []⟩

/-- The dict backing a given category. -/
def Cache.bucket {V : Type} (c : Cache V) : Category → List (String × List (Record V))
  | .prices => c.pricesCache
  | .financialMetrics => c.financialMetricsCache
  | .lineItems => c.lineItemsCache
  | .insiderTrades => c.insiderTradesCache
  | .companyNews => c.companyNewsCache

/-- Replace the dict backing a given category. -/
def Cache.setBucket {V : Type} (c : Cache V) (cat : Category)
    (b : List (String × List (Record V))) : Cache V :=
  match cat with
  | .prices => { c with pricesCache := b }
  | .financialMetrics => { c with financialMetricsCache := b }
  | .lineItems => { c with lineItemsCache := b }
  | .insiderTrades => { c with insiderTradesCache := b }
  | .companyNews => { c with companyNewsCache := b }

/-- The category-indexed getter: each of `get_prices`,
`get_financial_metrics`, `get_line_items`, `get_insider_trades` and
`get_company_news` is `self._<cat>_cache.get(ticker)`. -/
def Cache.get {V : Type} (c : Cache V) (cat : Category) (ticker : String) :
    Option (List (Record V)) :=
  alookup (c.bucket cat) ticker

/-- The category-indexed setter: each of `set_prices` etc. runs
`self._<cat>_cache[ticker] = self._merge_data(self._<cat>_cache.get(ticker),
data, key_field=<cat's key field>)`.  When `_merge_data` raises, the
exception propagates and the dict is left unchanged. -/
def Cache.set {V : Type} [DecidableEq V] (c : Cache V) (cat : Category)
    (ticker : String) (data : List (Record V)) : Except MergeError (Cache V) :=
  match merge_data (alookup (c.bucket cat) ticker) data cat.keyField with
  | .error e => .error e
  | .ok merged => .ok (c.setBucket cat (aupdate (c.bucket cat) ticker merged))

/-- `Cache.get_prices`. -/
def Cache.get_prices {V : Type} (c : Cache V) (ticker : String) :
    Option (List (Record V)) :=
  c.get .prices ticker

/-- `Cache.set_prices`. -/
def Cache.set_prices {V : Type} [DecidableEq V] (c : Cache V) (ticker : String)
    (data : List (Record V)) : Except MergeError (Cache V) :=
  c.set .prices ticker data

/-- What `pickle.load` on a cache file yields, together with how the
`cache_data["timestamp"]` / `cache_data["data"]` accesses behave on it.
`save_to_cache` only ever writes `wellFormed` entries; the other
constructors model corrupt, truncated or foreign file contents, which the
serialization layer (an opaque dependency of the source) can surface as any
of these outcomes. -/
inductive FileContent (α : Type) : Type where
  /-- A pickled `{"timestamp": t, "data": d}` dict as written by
  `save_to_cache`. -/
  | wellFormed (timestamp : Int) (data : α)
  /-- Unpickling raises `EOFError` or `pickle.UnpicklingError` (truncated or
  malformed stream) — both named in the `except` clause of
  `load_from_cache`. -/
  | corruptCaught
  /-- Unpickling raises an exception class outside that `except` clause
  (the pickle documentation notes `AttributeError`, `ImportError` or
  `IndexError` can also be raised on garbled input). -/
  | corruptUncaught
  /-- Unpickles successfully to a mapping that lacks the `"timestamp"` or
  `"data"` field: the subscript raises `KeyError`, which the `except`
  clause catches. -/
  | missingField
  /-- Unpickles successfully to a non-mapping value (unexpected structure):
  `cache_data["timestamp"]` raises `TypeError`, which the `except` clause
  does not catch. -/
  | nonMapping
  deriving DecidableEq

/-- The cache directory contents, keyed by cache key (the key-to-filename
mapping `key ↦ CACHE_DIR / f"{key}.pickle"` is injective, so keys index
files directly). -/
def Disk (α : Type) : Type := List (String × FileContent α)

instance (α : Type) [DecidableEq α] : DecidableEq (Disk α) :=
  inferInstanceAs (DecidableEq (List (String × FileContent α)))

/-- An exception escaping `load_from_cache` to its caller (e.g. `TypeError`
or `AttributeError`, which its `except (EOFError, pickle.UnpicklingError,
KeyError)` clause does not catch). -/
inductive LoadError : Type where
  | uncaughtError
  deriving DecidableEq

/-- `save_to_cache(key, data)`: pickles `{"timestamp": datetime.now(),
"data": data}` to the key's file, overwriting any prior entry.  `now` is the
explicit wall-clock timestamp. -/
def save_to_cache {α : Type} (disk : Disk α) (key : String) (now : Int)
    (data : α) : Disk α :=
  aupdate disk key (.wellFormed now data)

/-- `load_from_cache(key, max_age)`: absent file gives `None`; otherwise the
file is unpickled and the entry's age checked.  The guard is
`if max_age and age > max_age` — Python truthiness, so a `max_age` of `None`
or of zero duration skips the staleness check.  `EOFError`,
`pickle.UnpicklingError` and `KeyError` are caught and give `None`; any
other exception from unpickling or from subscripting propagates. -/
def load_from_cache {α : Type} (disk : Disk α) (key : String) (now : Int)
    (maxAge : Option Int) : Except LoadError (Option α) :=
  match alookup disk key with
  | none => .ok none
  | some content =>
    match content with
    | .wellFormed t d =>
      match maxAge with
      | none => .ok (some d)
      | some m => if m ≠ 0 ∧ now - t > m then .ok none else .ok (some d)
    | .corruptCaught => .ok none
    | .missingField => .ok none
    | .corruptUncaught => .error .uncaughtError
    | .nonMapping => .error .uncaughtError

/-- The tuple ordering Python's `sorted(kwargs.items())` uses: lexicographic
on the (name, value) pair, with values in their string form. -/
def pairRel (a b : String × String) : Prop :=
  a.1 < b.1 ∨ (a.1 = b.1 ∧ a.2 ≤ b.2)

instance pairRelDec : DecidableRel pairRel := fun a b =>
  inferInstanceAs (Decidable (a.1 < b.1 ∨ (a.1 = b.1 ∧ a.2 ≤ b.2)))

/-- `get_cache_key(prefix, **kwargs)`: sorts the keyword arguments, renders
each as `f"{k}={v}"`, joins them with `"_"` and prepends `f"{prefix}_"`.
Keyword arguments are modelled as an association list of name/value pairs
(values already in their string form); a Python dict iterates them in
insertion order, which `sorted` then normalises. -/
def get_cache_key (prefixStr : String) (kwargs : List (String × String)) :
    String :=
  let sortedItems := List.insertionSort pairRel kwargs
  let argsStr := String.intercalate "_" (sortedItems.map fun p => p.1 ++ "=" ++ p.2)
  prefixStr ++ "_" ++ argsStr

/-- The observable outcome of one call through the `cache_api_call` wrapper:
the value returned to the caller, the disk state afterwards, and whether the
wrapped function was actually invoked. -/
structure CallResult (α : Type) : Type where
  result : Option α
  disk : Disk α
  invoked : Bool
  deriving DecidableEq

/-- One call through the wrapper produced by
`cache_api_call(prefix, duration)` applied to a function `f`: build the key
from the keyword arguments, try `load_from_cache(cache_key, duration)`,
return a non-`None` cached value directly; on a miss call `f`, and persist
the result only when it `is not None` before returning it.  `f` is the
wrapped call at these fixed arguments, returning `none` for Python `None`;
`now` is the wall clock during the call. -/
def cache_api_call {α : Type} (prefixStr : String) (duration : Int)
    (f : Unit → Option α) (kwargs : List (String × String)) (disk : Disk α)
    (now : Int) : Except LoadError (CallResult α) :=
  let cacheKey := get_cache_key prefixStr kwargs
  match load_from_cache disk cacheKey now (some duration) with
  | .error e => .error e
  | .ok (some cachedData) => .ok ⟨some cachedData, disk, false⟩
  | .ok none =>
    match f () with
    | some r => .ok ⟨some r, save_to_cache disk cacheKey now r, true⟩
    | none => .ok ⟨none, disk, true⟩

/-- Key-field values of the records that carry the key field, in order. -/
def keysOf {V : Type} (items : List (Record V)) (kf : String) : List V :=
  items.filterMap fun r => getItem r kf

/-- Predicate deciding whether `filterNew` keeps a record: it carries the
key field and its value is not among the existing keys. -/
def keepNew {V : Type} [DecidableEq V] (kf : String) (ks : List V)
    (item : Record V) : Bool :=
  match getItem item kf with
  | none => false
  | some v => decide (v ∉ ks)

/-- Concrete cache holding one price record with time 0 for ticker "A",
used by concrete statements below. -/
def preloadedCache : Cache Nat :=
  (Cache.empty Nat).setBucket .prices
    (aupdate ((Cache.empty Nat).bucket .prices) "A" [[("time", 0)]])

/-- Cache state reached by the intra-batch duplicate set below. -/
def dupBatchResult : Cache Nat :=
  preloadedCache.setBucket .prices
    (aupdate (preloadedCache.bucket .prices) "A"
      [[("time", 0)], [("time", 1), ("x", 10)], [("time", 1), ("x", 20)]])

/-- Cache state reached by storing a keyless record in a fresh bucket. -/
def missingKeyFreshResult : Cache Nat :=
  (Cache.empty Nat).setBucket .prices
    (aupdate ((Cache.empty Nat).bucket .prices) "A" [[("close", 5)]])

/-- Cache state reached by storing two price records in a fresh bucket. -/
def twoPricesCache : Cache Nat :=
  (Cache.empty Nat).setBucket .prices
    (aupdate ((Cache.empty Nat).bucket .prices) "A" [[("time", 0)], [("time", 1)]])

instance exceptDecEq {ε α : Type} [DecidableEq ε] [DecidableEq α] :
    DecidableEq (Except ε α) := fun x y =>
  match x, y with
  | .ok a, .ok b => if h : a = b then isTrue (by rw [h]) else isFalse (by simp [h])
  | .error a, .error b => if h : a = b then isTrue (by rw [h]) else isFalse (by simp [h])
  | .ok _, .error _ => isFalse (by simp)
  | .error _, .ok _ => isFalse (by simp)

instance : IsTotal (String × String) pairRel := by
  constructor
  intro a b
  rcases lt_trichotomy a.1 b.1 with h1 | h1 | h1
  · exact Or.inl (Or.inl h1)
  · rcases le_total a.2 b.2 with h2 | h2
    · exact Or.inl (Or.inr ⟨h1, h2⟩)
    · exact Or.inr (Or.inr ⟨h1.symm, h2⟩)
  · exact Or.inr (Or.inl h1)

instance : IsTrans (String × String) pairRel := by
  constructor
  intro a b c hab hbc
  rcases hab with h1 | ⟨h1, h2⟩ <;> rcases hbc with h3 | ⟨h3, h4⟩
  · exact Or.inl (h1.trans h3)
  · exact Or.inl (h3 ▸ h1)
  · exact Or.inl (h1 ▸ h3)
  · exact Or.inr ⟨h1.trans h3, h2.trans h4⟩

instance : IsAntisymm (String × String) pairRel := by
  constructor
  intro a b hab hba
  rcases hab with h1 | ⟨h1, h2⟩ <;> rcases hba with h3 | ⟨h3, h4⟩
  · exact absurd (h1.trans h3) (lt_irrefl _)
  · exact absurd h1 (h3 ▸ lt_irrefl _)
  · exact absurd h3 (h1 ▸ lt_irrefl _)
  · exact Prod.ext h1 (le_antisymm h2 h4)

/-- Disk with one entry of each caught-corruption kind, for witnesses. -/
def corruptDisk : Disk Nat :=
  [("c", .corruptCaught), ("m", .missingField)]

/-- Disk holding a persisted empty list under the key built from prefixStr
"p" and no keyword arguments. -/
def emptyListDisk : Disk (List Nat) := [("p_", .wellFormed 0 [])]

theorem mem_keysOf {V : Type} {items : List (Record V)} {kf : String} {v : V} :
    v ∈ keysOf items kf ↔ ∃ r ∈ items, getItem r kf = some v := by
  simp [keysOf, List.mem_filterMap]

theorem keysOf_append {V : Type} (l1 l2 : List (Record V)) (kf : String) :
    keysOf (l1 ++ l2) kf = keysOf l1 kf ++ keysOf l2 kf := by
  simp [keysOf, List.filterMap_append]

theorem extractKeys_ok_of_forall {V : Type} {items : List (Record V)}
    {kf : String} (h : ∀ r ∈ items, getItem r kf ≠ none) :
    extractKeys items kf = .ok (keysOf items kf) := by
  induction items with
  | nil => simp [extractKeys, keysOf]
  | cons item rest ih =>
    cases hv : getItem item kf with
    | none => exact absurd hv (h item (List.mem_cons_self item rest))
    | some v =>
      have := ih fun r hr => h r (List.mem_cons_of_mem item hr)
      simp [extractKeys, hv, this, keysOf, List.filterMap_cons]

theorem forall_of_extractKeys_ok {V : Type} {items : List (Record V)}
    {kf : String} {ks : List V} (h : extractKeys items kf = .ok ks) :
    ∀ r ∈ items, getItem r kf ≠ none := by
  induction items generalizing ks with
  | nil => simp
  | cons item rest ih =>
    intro r hr
    rcases List.mem_cons.mp hr with rfl | hr2
    · intro hnone
      simp [extractKeys, hnone] at h
    · cases hv : getItem item kf with
      | none => simp [extractKeys, hv] at h
      | some v =>
        cases hrest : extractKeys rest kf with
        | error e => simp [extractKeys, hv, hrest] at h
        | ok vs => exact ih hrest r hr2

theorem extractKeys_ok_elim {V : Type} {items : List (Record V)} {kf : String}
    {ks : List V} (h : extractKeys items kf = .ok ks) :
    ks = keysOf items kf := by
  have h2 := extractKeys_ok_of_forall (forall_of_extractKeys_ok h)
  rw [h] at h2
  exact (Except.ok.injEq _ _).mp h2

theorem extractKeys_error_of_missing {V : Type} {items : List (Record V)}
    {kf : String} (h : ∃ r ∈ items, getItem r kf = none) :
    extractKeys items kf = .error .keyError := by
  induction items with
  | nil => simp at h
  | cons item rest ih =>
    rcases h with ⟨r, hr, hnone⟩
    rcases List.mem_cons.mp hr with rfl | hr2
    · simp [extractKeys, hnone]
    · cases hv : getItem item kf with
      | none => simp [extractKeys, hv]
      | some v => simp [extractKeys, hv, ih ⟨r, hr2, hnone⟩]

theorem filterNew_ok_of_forall {V : Type} [DecidableEq V]
    {nd : List (Record V)} {kf : String} (ks : List V)
    (h : ∀ r ∈ nd, getItem r kf ≠ none) :
    filterNew nd kf ks = .ok (nd.filter (keepNew kf ks)) := by
  induction nd with
  | nil => simp [filterNew]
  | cons item rest ih =>
    cases hv : getItem item kf with
    | none => exact absurd hv (h item (List.mem_cons_self item rest))
    | some v =>
      have := ih fun r hr => h r (List.mem_cons_of_mem item hr)
      by_cases hmem : v ∈ ks
      · simp [filterNew, hv, this, hmem, List.filter_cons, keepNew]
      · simp [filterNew, hv, this, hmem, List.filter_cons, keepNew]

theorem forall_of_filterNew_ok {V : Type} [DecidableEq V]
    {nd : List (Record V)} {kf : String} {ks : List V} {keep : List (Record V)}
    (h : filterNew nd kf ks = .ok keep) :
    ∀ r ∈ nd, getItem r kf ≠ none := by
  induction nd generalizing keep with
  | nil => simp
  | cons item rest ih =>
    intro r hr
    rcases List.mem_cons.mp hr with rfl | hr2
    · intro hnone
      simp [filterNew, hnone] at h
    · cases hv : getItem item kf with
      | none => simp [filterNew, hv] at h
      | some v =>
        cases hrest : filterNew rest kf ks with
        | error e => simp [filterNew, hv, hrest] at h
        | ok keep2 => exact ih hrest r hr2

theorem filterNew_ok_elim {V : Type} [DecidableEq V] {nd : List (Record V)}
    {kf : String} {ks : List V} {keep : List (Record V)}
    (h : filterNew nd kf ks = .ok keep) :
    keep = nd.filter (keepNew kf ks) := by
  have h2 := filterNew_ok_of_forall ks (forall_of_filterNew_ok h)
  rw [h] at h2
  exact (Except.ok.injEq _ _).mp h2

theorem filterNew_error_of_missing {V : Type} [DecidableEq V]
    {nd : List (Record V)} {kf : String} (ks : List V)
    (h : ∃ r ∈ nd, getItem r kf = none) :
    filterNew nd kf ks = .error .keyError := by
  induction nd with
  | nil => simp at h
  | cons item rest ih =>
    rcases h with ⟨r, hr, hnone⟩
    rcases List.mem_cons.mp hr with rfl | hr2
    · simp [filterNew, hnone]
    · cases hv : getItem item kf with
      | none => simp [filterNew, hv]
      | some v => simp [filterNew, hv, ih ⟨r, hr2, hnone⟩]

theorem alookup_aupdate_self {β : Type} (m : List (String × β)) (k : String)
    (v : β) : alookup (aupdate m k v) k = some v := by
  induction m with
  | nil => simp [aupdate, alookup]
  | cons hd tl ih =>
    obtain ⟨k2, v2⟩ := hd
    by_cases h : k2 = k
    · subst h
      simp [aupdate, alookup]
    · simp [aupdate, alookup, h, ih]

theorem bucket_setBucket_self {V : Type} (c : Cache V) (cat : Category)
    (b : List (String × List (Record V))) :
    (c.setBucket cat b).bucket cat = b := by
  cases cat <;> rfl

theorem set_via_merge {V : Type} [DecidableEq V] {c : Cache V} {cat : Category}
    {t : String} {nd merged : List (Record V)}
    (hm : merge_data (c.get cat t) nd cat.keyField = .ok merged) :
    c.set cat t nd = .ok (c.setBucket cat (aupdate (c.bucket cat) t merged)) ∧
    (c.setBucket cat (aupdate (c.bucket cat) t merged)).get cat t = some merged := by
  unfold Cache.get at hm
  constructor
  · unfold Cache.set
    rw [hm]
  · unfold Cache.get
    rw [bucket_setBucket_self]
    exact alookup_aupdate_self _ _ _

theorem get_after_set {V : Type} [DecidableEq V] {c c2 : Cache V}
    {cat : Category} {t : String} {data : List (Record V)}
    (h : c.set cat t data = .ok c2) :
    ∃ merged, merge_data (c.get cat t) data cat.keyField = .ok merged ∧
      c2.get cat t = some merged := by
  unfold Cache.set at h
  cases hm : merge_data (alookup (c.bucket cat) t) data cat.keyField with
  | error e => rw [hm] at h; exact absurd h (by simp)
  | ok merged =>
    rw [hm] at h
    refine ⟨merged, hm, ?_⟩
    have hc2 : c2 = c.setBucket cat (aupdate (c.bucket cat) t merged) :=
      ((Except.ok.injEq _ _).mp h).symm
    rw [hc2]
    unfold Cache.get
    rw [bucket_setBucket_self]
    exact alookup_aupdate_self _ _ _

theorem set_error_of_merge_error {V : Type} [DecidableEq V] {c : Cache V}
    {cat : Category} {t : String} {data : List (Record V)} {e : MergeError}
    (h : merge_data (c.get cat t) data cat.keyField = .error e) :
    c.set cat t data = .error e := by
  unfold Cache.set
  unfold Cache.get at h
  rw [h]

theorem merge_fresh {V : Type} [DecidableEq V] {existing : Option (List (Record V))}
    (nd : List (Record V)) (kf : String)
    (h : existing = none ∨ existing = some []) :
    merge_data existing nd kf = .ok nd := by
  rcases h with h | h <;> subst h <;> simp [merge_data]

/-- C10: when nothing is stored yet for a (category, ticker) pair — the
bucket is absent or explicitly empty — `set` stores the new records exactly
as given: no duplicate filtering, no key-field access, hence no missing-key
error, and the stored list equals the caller's input verbatim. -/
theorem cache_set_fresh_verbatim {V : Type} [DecidableEq V] (c : Cache V)
    (cat : Category) (t : String) (newData : List (Record V))
    (h : c.get cat t = none ∨ c.get cat t = some []) :
    ∃ c2, c.set cat t newData = .ok c2 ∧ c2.get cat t = some newData := by
  have hm : merge_data (c.get cat t) newData cat.keyField = .ok newData :=
    merge_fresh newData cat.keyField h
  obtain ⟨hset, hget⟩ := set_via_merge hm
  exact ⟨_, hset, hget⟩

/-- C10 witness: a fresh cache stores a batch verbatim even when it contains
duplicate records that both lack the category's key field. -/
theorem cache_set_fresh_verbatim_witness :
    ∃ c2, (Cache.empty Nat).set .prices "AAPL" [[("x", 1)], [("x", 1)]] = .ok c2 ∧
      c2.get .prices "AAPL" = some [[("x", 1)], [("x", 1)]] :=
  cache_set_fresh_verbatim (Cache.empty Nat) .prices "AAPL"
    [[("x", 1)], [("x", 1)]] (Or.inl rfl)

/-- C7: starting from a fresh (category, ticker) bucket, with r1, r2, r3
carrying pairwise-distinct key-field values, `set [r1, r2]` followed by
`set [r3]` yields exactly `[r1, r2, r3]` in that order: existing records
keep their relative order and new ones are appended after them. -/
theorem cache_set_order_preservation {V : Type} [DecidableEq V] (c : Cache V)
    (cat : Category) (t : String) (r1 r2 r3 : Record V) (k1 k2 k3 : V)
    (hfresh : c.get cat t = none)
    (h1 : getItem r1 cat.keyField = some k1)
    (h2 : getItem r2 cat.keyField = some k2)
    (h3 : getItem r3 cat.keyField = some k3)
    (h12 : k1 ≠ k2) (h13 : k1 ≠ k3) (h23 : k2 ≠ k3) :
    ∃ c1 c2, c.set cat t [r1, r2] = .ok c1 ∧ c1.set cat t [r3] = .ok c2 ∧
      c2.get cat t = some [r1, r2, r3] := by
  have hm1 : merge_data (c.get cat t) [r1, r2] cat.keyField = .ok [r1, r2] :=
    merge_fresh _ _ (Or.inl hfresh)
  obtain ⟨hset1, hget1⟩ := set_via_merge hm1
  have hm2 : merge_data
      ((c.setBucket cat (aupdate (c.bucket cat) t [r1, r2])).get cat t)
      [r3] cat.keyField = .ok [r1, r2, r3] := by
    rw [hget1]
    simp [merge_data, extractKeys, filterNew, h1, h2, h3, Ne.symm h13, Ne.symm h23]
  obtain ⟨hset2, hget2⟩ := set_via_merge hm2
  exact ⟨_, _, hset1, hset2, hget2⟩

/-- C7 witness: concrete price records with times 0, 1, 2. -/
theorem cache_set_order_preservation_witness :
    ∃ c1 c2, (Cache.empty Nat).set .prices "A" [[("time", 0)], [("time", 1)]] = .ok c1 ∧
      c1.set .prices "A" [[("time", 2)]] = .ok c2 ∧
      c2.get .prices "A" = some [[("time", 0)], [("time", 1)], [("time", 2)]] :=
  cache_set_order_preservation (Cache.empty Nat) .prices "A"
    [("time", 0)] [("time", 1)] [("time", 2)] 0 1 2
    rfl (by decide) (by decide) (by decide) (by decide) (by decide) (by decide)

/-- C8: starting from a fresh (category, ticker) bucket, after `set [r1]`
then `set [r1']` where r1' shares r1's key-field value but is a different
record, `get` returns `[r1]`: the pre-existing record is kept and the
incoming one discarded. -/
theorem cache_set_duplicate_drop {V : Type} [DecidableEq V] (c : Cache V)
    (cat : Category) (t : String) (r1 r1b : Record V) (k : V)
    (hfresh : c.get cat t = none)
    (h1 : getItem r1 cat.keyField = some k)
    (h1b : getItem r1b cat.keyField = some k)
    (hne : r1 ≠ r1b) :
    ∃ c1 c2, c.set cat t [r1] = .ok c1 ∧ c1.set cat t [r1b] = .ok c2 ∧
      c2.get cat t = some [r1] := by
  have hm1 : merge_data (c.get cat t) [r1] cat.keyField = .ok [r1] :=
    merge_fresh _ _ (Or.inl hfresh)
  obtain ⟨hset1, hget1⟩ := set_via_merge hm1
  have hm2 : merge_data
      ((c.setBucket cat (aupdate (c.bucket cat) t [r1])).get cat t)
      [r1b] cat.keyField = .ok [r1] := by
    rw [hget1]
    simp [merge_data, extractKeys, filterNew, h1, h1b]
  obtain ⟨hset2, hget2⟩ := set_via_merge hm2
  exact ⟨_, _, hset1, hset2, hget2⟩

/-- C8 witness: two price records sharing time 0 but different close field. -/
theorem cache_set_duplicate_drop_witness :
    ∃ c1 c2, (Cache.empty Nat).set .prices "A" [[("time", 0), ("close", 10)]] = .ok c1 ∧
      c1.set .prices "A" [[("time", 0), ("close", 20)]] = .ok c2 ∧
      c2.get .prices "A" = some [[("time", 0), ("close", 10)]] :=
  cache_set_duplicate_drop (Cache.empty Nat) .prices "A"
    [("time", 0), ("close", 10)] [("time", 0), ("close", 20)] 0
    rfl (by decide) (by decide) (by decide)


theorem filterNew_ok_nil_of_covered {V : Type} [DecidableEq V]
    {nd : List (Record V)} {kf : String} {ks : List V}
    (h : ∀ r ∈ nd, ∃ v, getItem r kf = some v ∧ v ∈ ks) :
    filterNew nd kf ks = .ok [] := by
  induction nd with
  | nil => simp [filterNew]
  | cons item rest ih =>
    obtain ⟨v, hv, hmem⟩ := h item (List.mem_cons_self item rest)
    have htail := ih fun r hr => h r (List.mem_cons_of_mem item hr)
    simp [filterNew, hv, htail, hmem]

theorem merge_ok_cases {V : Type} [DecidableEq V]
    {existing : Option (List (Record V))} {L merged : List (Record V)}
    {kf : String} (hm : merge_data existing L kf = .ok merged) :
    (existing = none ∨ existing = some []) ∧ merged = L ∨
      ∃ ex keep ks, existing = some ex ∧ ex ≠ [] ∧
        extractKeys ex kf = .ok ks ∧ filterNew L kf ks = .ok keep ∧
        merged = ex ++ keep := by
  cases existing with
  | none =>
    simp [merge_data] at hm
    exact Or.inl ⟨Or.inl rfl, hm.symm⟩
  | some ex =>
    by_cases hnil : ex = []
    · subst hnil
      simp [merge_data] at hm
      exact Or.inl ⟨Or.inr rfl, hm.symm⟩
    · simp only [merge_data] at hm
      rw [if_neg hnil] at hm
      cases hek : extractKeys ex kf with
      | error e => rw [hek] at hm; exact absurd hm (by simp)
      | ok ks =>
        rw [hek] at hm
        dsimp only at hm
        cases hfn : filterNew L kf ks with
        | error e => rw [hfn] at hm; exact absurd hm (by simp)
        | ok keep =>
          rw [hfn] at hm
          exact Or.inr ⟨ex, keep, ks, rfl, hnil, hek, hfn,
            ((Except.ok.injEq _ _).mp hm).symm⟩

/-- C6: merge idempotence — if every record of L carries the category's key
field and `set cat t L` succeeded once, running the same `set` again
succeeds and leaves the stored list for (cat, t) unchanged: no duplicates
are introduced by the repeated set. -/
theorem cache_set_idempotent {V : Type} [DecidableEq V] (c c1 : Cache V)
    (cat : Category) (t : String) (L : List (Record V))
    (hkeys : ∀ r ∈ L, getItem r cat.keyField ≠ none)
    (hset1 : c.set cat t L = .ok c1) :
    ∃ c2, c1.set cat t L = .ok c2 ∧ c2.get cat t = c1.get cat t := by
  obtain ⟨merged, hm1, hget1⟩ := get_after_set hset1
  have hcases := merge_ok_cases hm1
  have hmk : ∀ r ∈ merged, getItem r cat.keyField ≠ none := by
    rcases hcases with ⟨hfr, rfl⟩ | ⟨ex, keep, ks, hex, hnil, hek, hfn, rfl⟩
    · exact hkeys
    · intro r hr
      rcases List.mem_append.mp hr with hr | hr
      · exact forall_of_extractKeys_ok hek r hr
      · have hkeep := filterNew_ok_elim hfn
        subst hkeep
        exact hkeys r (List.mem_of_mem_filter hr)
  have hcov : ∀ r ∈ L, ∃ v, getItem r cat.keyField = some v ∧
      v ∈ keysOf merged cat.keyField := by
    intro r hr
    cases hv : getItem r cat.keyField with
    | none => exact absurd hv (hkeys r hr)
    | some v =>
      refine ⟨v, rfl, ?_⟩
      rcases hcases with ⟨hfr, rfl⟩ | ⟨ex, keep, ks, hex, hnil, hek, hfn, rfl⟩
      · exact mem_keysOf.mpr ⟨r, hr, hv⟩
      · rw [keysOf_append]
        have hks := extractKeys_ok_elim hek
        subst hks
        by_cases hmem : v ∈ keysOf ex cat.keyField
        · exact List.mem_append.mpr (Or.inl hmem)
        · refine List.mem_append.mpr (Or.inr ?_)
          have hkeep := filterNew_ok_elim hfn
          subst hkeep
          refine mem_keysOf.mpr ⟨r, ?_, hv⟩
          refine List.mem_filter.mpr ⟨hr, ?_⟩
          simp [keepNew, hv, hmem]
  have hm2 : merge_data (some merged) L cat.keyField = .ok merged := by
    by_cases hmnil : merged = []
    · subst hmnil
      rcases hcases with ⟨hfr, rfl⟩ | ⟨ex, keep, ks, hex, hnil, hek, hfn, happ⟩
      · simp [merge_data]
      · exact absurd (List.append_eq_nil.mp happ.symm).1 hnil
    · simp only [merge_data]
      rw [if_neg hmnil]
      rw [extractKeys_ok_of_forall hmk]
      dsimp only
      rw [filterNew_ok_nil_of_covered hcov]
      simp
  rw [← hget1] at hm2
  obtain ⟨hset2, hget2⟩ := set_via_merge hm2
  refine ⟨_, hset2, ?_⟩
  rw [hget2, hget1]

/-- C6 witness: repeating a set of two price records leaves the stored list
unchanged. -/
theorem cache_set_idempotent_witness :
    ∃ c2, twoPricesCache.set .prices "A" [[("time", 0)], [("time", 1)]] = .ok c2 ∧
      c2.get .prices "A" = twoPricesCache.get .prices "A" :=
  cache_set_idempotent (Cache.empty Nat) twoPricesCache .prices "A"
    [[("time", 0)], [("time", 1)]] (by decide) rfl


/-- C1 counterexample: with `[{"time": 0}]` stored, setting
`[{"time": 1, "x": 10}, {"time": 1, "x": 20}]` succeeds and keeps both
incoming records even though they share the key-field value 1, so the
resulting stored list holds two distinct records with the same key-field
value — the duplicate coming from within the new batch is not discarded. -/
theorem cache_set_intra_batch_dup_counterexample :
    preloadedCache.set .prices "A" [[("time", 1), ("x", 10)], [("time", 1), ("x", 20)]] =
      .ok dupBatchResult ∧
    dupBatchResult.get .prices "A" =
      some [[("time", 0)], [("time", 1), ("x", 10)], [("time", 1), ("x", 20)]] ∧
    getItem [("time", 1), ("x", 10)] Category.prices.keyField = some 1 ∧
    getItem [("time", 1), ("x", 20)] Category.prices.keyField = some (1 : Nat) ∧
    ([("time", 1), ("x", 10)] : Record Nat) ≠ [("time", 1), ("x", 20)] :=
  ⟨rfl, rfl, rfl, rfl, by decide⟩

/-- C1 amended: a successful set on a non-empty (category, ticker) bucket
stores the previously held records unchanged, followed by exactly those new
records whose key-field value matches no previously stored record (the
pre-existing version wins); new records are only checked against the old
batch, not against each other, so duplicates within `newRecords` are all
retained. -/
theorem cache_set_dedup_against_existing {V : Type} [DecidableEq V]
    (c c2 : Cache V) (cat : Category) (t : String)
    (ex newData : List (Record V))
    (hget : c.get cat t = some ex) (hne : ex ≠ [])
    (hset : c.set cat t newData = .ok c2) :
    c2.get cat t = some (ex ++ newData.filter fun item =>
      decide (∀ e ∈ ex, getItem e cat.keyField ≠ getItem item cat.keyField)) := by
  obtain ⟨merged, hm, hget2⟩ := get_after_set hset
  rw [hget] at hm
  rcases merge_ok_cases hm with ⟨hfr, rfl⟩ | ⟨ex2, keep, ks, hex2, hnil2, hek, hfn, rfl⟩
  · rcases hfr with hfr | hfr
    · exact absurd hfr (by simp)
    · exact absurd ((Option.some.injEq _ _).mp hfr) hne
  · have hex : ex2 = ex := ((Option.some.injEq _ _).mp hex2.symm)
    subst hex
    have hkeep := filterNew_ok_elim hfn
    subst hkeep
    have hks := extractKeys_ok_elim hek
    subst hks
    rw [hget2]
    congr 1
    congr 1
    refine List.filter_congr ?_
    intro item hitem
    cases hv : getItem item cat.keyField with
    | none => exact absurd hv (forall_of_filterNew_ok hfn item hitem)
    | some v =>
      simp only [keepNew, hv]
      refine decide_eq_decide.mpr ?_
      constructor
      · intro hnot e he hEq
        exact hnot (mem_keysOf.mpr ⟨e, he, hEq ▸ rfl⟩)
      · intro hall hmem
        obtain ⟨e, he, hev⟩ := mem_keysOf.mp hmem
        exact hall e he hev

/-- C1 amended witness: applying the dedup characterisation to the concrete
counterexample input. -/
theorem cache_set_dedup_against_existing_witness :
    dupBatchResult.get .prices "A" =
      some (([[("time", 0)]] : List (Record Nat)) ++
        ([[("time", 1), ("x", 10)], [("time", 1), ("x", 20)]] :
          List (Record Nat)).filter fun item =>
        decide (∀ e ∈ [[("time", (0 : Nat))]],
          getItem e Category.prices.keyField ≠ getItem item Category.prices.keyField)) :=
  cache_set_dedup_against_existing preloadedCache dupBatchResult .prices "A"
    [[("time", 0)]] [[("time", 1), ("x", 10)], [("time", 1), ("x", 20)]]
    rfl (by decide) rfl

/-- C3 counterexample: on a fresh (category, ticker) bucket, setting a batch
whose only record lacks the category's key field succeeds and stores the
record verbatim — no LookupError-class failure reaches the caller. -/
theorem cache_set_missing_key_fresh_counterexample :
    getItem [("close", 5)] Category.prices.keyField = (none : Option Nat) ∧
    (Cache.empty Nat).set .prices "A" [[("close", 5)]] = .ok missingKeyFreshResult ∧
    missingKeyFreshResult.get .prices "A" = some [[("close", 5)]] :=
  ⟨rfl, rfl, rfl⟩

/-- C3 amended: when the (category, ticker) bucket currently holds a
non-empty record list, a set whose batch contains a record lacking the
category's key field fails with the KeyError-class merge error, which is
returned to the caller rather than swallowed. -/
theorem cache_set_missing_key_raises {V : Type} [DecidableEq V]
    (c : Cache V) (cat : Category) (t : String)
    (ex newData : List (Record V))
    (hget : c.get cat t = some ex) (hne : ex ≠ [])
    (hmiss : ∃ r ∈ newData, getItem r cat.keyField = none) :
    c.set cat t newData = .error .keyError := by
  refine set_error_of_merge_error ?_
  rw [hget]
  simp only [merge_data]
  rw [if_neg hne]
  cases hek : extractKeys ex cat.keyField with
  | error e => cases e; rfl
  | ok ks =>
    dsimp only
    rw [filterNew_error_of_missing ks hmiss]

/-- C3 amended witness: with a price record stored, setting a record lacking
the "time" field returns the KeyError-class error. -/
theorem cache_set_missing_key_raises_witness :
    preloadedCache.set .prices "A" [[("close", 5)]] = .error .keyError :=
  cache_set_missing_key_raises preloadedCache .prices "A" [[("time", 0)]]
    [[("close", 5)]] rfl (by decide) ⟨[("close", 5)], by decide, rfl⟩


/-- C4 amended: after a put, a get with a given maxAge returns the stored
value whenever the entry's age does not exceed maxAge, and returns absent
when maxAge is nonzero and the age strictly exceeds it; a get with maxAge
absent — or with the zero duration, which the Python guard
`if max_age and age > max_age` treats as falsy — returns the value
regardless of age. -/
theorem load_after_save_ttl {α : Type} (disk : Disk α) (k : String) (v : α)
    (t0 t1 m : Int) :
    load_from_cache (save_to_cache disk k t0 v) k t1 (some m) =
      .ok (if m ≠ 0 ∧ t1 - t0 > m then none else some v) ∧
    load_from_cache (save_to_cache disk k t0 v) k t1 none = .ok (some v) := by
  unfold load_from_cache save_to_cache
  rw [alookup_aupdate_self]
  constructor
  · dsimp only
    split <;> rfl
  · rfl

/-- C4 counterexample: an entry whose age strictly exceeds the given maxAge
of zero is still returned — after a put at time 0, a get at time 5 with
maxAge 0 yields the value although its age exceeds the bound, because the
zero duration is falsy and the staleness check is skipped. -/
theorem load_zero_max_age_counterexample :
    (5 : Int) - 0 > 0 ∧
    load_from_cache (save_to_cache ([] : Disk Nat) "k" 0 7) "k" 5 (some 0) =
      .ok (some 7) := by
  constructor
  · decide
  · rfl

/-- C5 amended: a missing file, an entry whose unpickling raises EOFError or
UnpicklingError, and an entry lacking the expected field (KeyError) are all
absorbed as a cache miss, returning absent. -/
theorem load_corrupt_absorbed {α : Type} (disk : Disk α) (k : String)
    (now : Int) (maxAge : Option Int) :
    (alookup disk k = none → load_from_cache disk k now maxAge = .ok none) ∧
    (alookup disk k = some .corruptCaught →
      load_from_cache disk k now maxAge = .ok none) ∧
    (alookup disk k = some .missingField →
      load_from_cache disk k now maxAge = .ok none) := by
  refine ⟨?_, ?_, ?_⟩ <;> intro h <;> unfold load_from_cache <;> rw [h]

/-- C5 amended witness: the caught-corruption and missing-field entries of a
concrete disk read back as cache misses. -/
theorem load_corrupt_absorbed_witness :
    alookup corruptDisk "c" = some .corruptCaught ∧
    load_from_cache corruptDisk "c" 0 (some 60) = .ok none ∧
    alookup corruptDisk "m" = some .missingField ∧
    load_from_cache corruptDisk "m" 0 (some 60) = .ok none :=
  ⟨rfl, (load_corrupt_absorbed corruptDisk "c" 0 (some 60)).2.1 rfl,
   rfl, (load_corrupt_absorbed corruptDisk "m" 0 (some 60)).2.2 rfl⟩

/-- C5 counterexample: a disk entry that deserializes to a value of
unexpected non-mapping structure makes the read raise — the TypeError from
subscripting it is outside the caught exception tuple, so the failure
reaches the caller instead of being treated as a cache miss. -/
theorem load_nonmapping_raises_counterexample :
    load_from_cache ([("k", FileContent.nonMapping)] : Disk Nat) "k" 0 none =
      .error .uncaughtError := rfl

/-- C2 amended: with no disk entry under the computed key, the wrapper
invokes the wrapped operation; an absent (None) result is not persisted —
the disk is unchanged, so an identical call at any later time invokes the
operation again — while any non-None result, empty included, is persisted
under the same key and returned. -/
theorem cache_api_call_none_skip {α : Type} (prefixStr : String)
    (duration : Int) (f : Unit → Option α) (kwargs : List (String × String))
    (disk : Disk α) (now now2 : Int)
    (hmiss : alookup disk (get_cache_key prefixStr kwargs) = none) :
    (f () = none →
      cache_api_call prefixStr duration f kwargs disk now = .ok ⟨none, disk, true⟩ ∧
      cache_api_call prefixStr duration f kwargs disk now2 = .ok ⟨none, disk, true⟩) ∧
    (∀ r, f () = some r →
      cache_api_call prefixStr duration f kwargs disk now =
        .ok ⟨some r, save_to_cache disk (get_cache_key prefixStr kwargs) now r, true⟩) := by
  have hload : ∀ t : Int,
      load_from_cache disk (get_cache_key prefixStr kwargs) t (some duration) =
        .ok none := by
    intro t
    unfold load_from_cache
    rw [hmiss]
  constructor
  · intro hf
    constructor <;>
      (unfold cache_api_call; dsimp only; rw [hload, hf])
  · intro r hf
    unfold cache_api_call
    dsimp only
    rw [hload, hf]

/-- C2 amended witness: a wrapped operation returning None is re-invoked on
a second identical call with nothing persisted in between. -/
theorem cache_api_call_none_skip_witness :
    cache_api_call "p" 86400 (fun _ => (none : Option Nat)) [] [] 0 =
      .ok ⟨none, [], true⟩ ∧
    cache_api_call "p" 86400 (fun _ => (none : Option Nat)) [] [] 5 =
      .ok ⟨none, [], true⟩ :=
  (cache_api_call_none_skip "p" 86400 (fun _ => none) [] [] 0 5 rfl).1 rfl

/-- C2 counterexample: a wrapped operation returning an empty — but not
absent — list has that empty result persisted (`[]` is not `None`), and an
identical later call returns the cached empty value without re-invoking the
operation. -/
theorem cache_api_call_empty_persisted_counterexample :
    cache_api_call "p" 86400 (fun _ => some ([] : List Nat)) [] [] 0 =
      .ok ⟨some [], emptyListDisk, true⟩ ∧
    cache_api_call "p" 86400 (fun _ => some ([] : List Nat)) [] emptyListDisk 0 =
      .ok ⟨some [], emptyListDisk, false⟩ :=
  ⟨rfl, rfl⟩

/-- C9: cache-key determinism — two keyword-argument mappings carrying the
same name/value pairs, supplied in any order, produce byte-identical key
strings. -/
theorem get_cache_key_deterministic (prefixStr : String)
    (l1 l2 : List (String × String)) (h : l1.Perm l2) :
    get_cache_key prefixStr l1 = get_cache_key prefixStr l2 := by
  unfold get_cache_key
  have hsort : List.insertionSort pairRel l1 = List.insertionSort pairRel l2 :=
    List.eq_of_perm_of_sorted
      (((List.perm_insertionSort pairRel l1).trans h).trans
        (List.perm_insertionSort pairRel l2).symm)
      (List.sorted_insertionSort pairRel l1)
      (List.sorted_insertionSort pairRel l2)
  rw [hsort]

/-- C9 witness: the key for the financial call with {ticker: AAPL,
period: Q1} does not depend on the order the arguments are supplied. -/
theorem get_cache_key_deterministic_witness :
    get_cache_key "financial" [("ticker", "AAPL"), ("period", "Q1")] =
      get_cache_key "financial" [("period", "Q1"), ("ticker", "AAPL")] :=
  get_cache_key_deterministic "financial" _ _ (List.Perm.swap _ _ _)


end AIHedgeFund
